import Mathlib

/-!
Verification of the Telnet option-negotiation decoder (`telnet_decoder.py`).

The development shallowly embeds the pure core of the script:
the option registry (`get_option_name`), the command decoder
(`decode_command`), the subnegotiation payload decoder
(`decode_subnegotiation`), the stream scanner (`parse_telnet_data`),
the outbound frame builders (`send_telnet_command`,
`send_subnegotiation`) and the auto-responder state updates of the
receive loop in `main` (`policyStep`).

Byte buffers are `List Nat` (each element a byte value).  Python
strings are Lean `String`s; the two lossy ASCII decodings used by the
script (`errors='ignore'` and `errors='replace'`) are embedded as
`asciiIgnore` and `asciiReplace`.  The scanner's `while` loop is
embedded as a fuel-indexed recursion on the remaining suffix of the
buffer; `parse_telnet_data` supplies `length` fuel, and the
fuel-irrelevance theorem shows that many iterations always suffice.
-/

namespace TelnetDecoder

/-- Telnet protocol constant IAC (Interpret As Command). -/
def IAC : Nat := 255

/-- Telnet protocol constant DONT. -/
def DONT : Nat := 254

/-- Telnet protocol constant DO. -/
def DO : Nat := 253

/-- Telnet protocol constant WONT. -/
def WONT : Nat := 252

/-- Telnet protocol constant WILL. -/
def WILL : Nat := 251

/-- Telnet protocol constant SB (Subnegotiation Begin). -/
def SB : Nat := 250

/-- Telnet protocol constant SE (Subnegotiation End). -/
def SE : Nat := 240

/-- Telnet protocol constant NOP. -/
def NOP : Nat := 241

/-- Lookup in the `OPTIONS` dictionary of the script: maps an option
code to its name, `none` for codes absent from the table. -/
def OPTIONS_get : Nat → Option String
  | 0 => some "Binary Transmission"
  | 1 => some "Echo"
  | 2 => some "Reconnection"
  | 3 => some "Suppress Go Ahead"
  | 4 => some "Approx Message Size Negotiation"
  | 5 => some "Status"
  | 6 => some "Timing Mark"
  | 7 => some "Remote Controlled Trans and Echo"
  | 8 => some "Output Line Width"
  | 9 => some "Output Page Size"
  | 10 => some "Output Carriage-Return Disposition"
  | 11 => some "Output Horizontal Tab Stops"
  | 12 => some "Output Horizontal Tab Disposition"
  | 13 => some "Output Formfeed Disposition"
  | 14 => some "Output Vertical Tabstops"
  | 15 => some "Output Vertical Tab Disposition"
  | 16 => some "Output Linefeed Disposition"
  | 17 => some "Extended ASCII"
  | 18 => some "Logout"
  | 19 => some "Byte Macro"
  | 20 => some "Data Entry Terminal"
  | 21 => some "SUPDUP"
  | 22 => some "SUPDUP Output"
  | 23 => some "Send Location"
  | 24 => some "Terminal Type"
  | 25 => some "End of Record"
  | 26 => some "TACACS User Identification"
  | 27 => some "Output Marking"
  | 28 => some "Terminal Location Number"
  | 29 => some "Telnet 3270 Regime"
  | 30 => some "X.3 PAD"
  | 31 => some "Negotiate About Window Size"
  | 32 => some "Terminal Speed"
  | 33 => some "Remote Flow Control"
  | 34 => some "Linemode"
  | 35 => some "X Display Location"
  | 36 => some "Environment Option"
  | 37 => some "Authentication Option"
  | 38 => some "Encryption Option"
  | 39 => some "New Environment Option"
  | 40 => some "TN3270E"
  | 41 => some "XAUTH"
  | 42 => some "CHARSET"
  | 43 => some "Telnet Remote Serial Port"
  | 44 => some "Com Port Control Option"
  | 45 => some "Telnet Suppress Local Echo"
  | 46 => some "Telnet Start TLS"
  | 47 => some "KERMIT"
  | 48 => some "SEND-URL"
  | 49 => some "FORWARD_X"
  | 138 => some "TELOPT PRAGMA LOGON"
  | 139 => some "TELOPT SSPI LOGON"
  | 140 => some "TELOPT PRAGMA HEARTBEAT"
  | _ => none

/-- Embedding of `get_option_name`: registry lookup with the synthetic
fallback label `Unknown Option <code>`. -/
def get_option_name (code : Nat) : String :=
  match OPTIONS_get code with
  | some s => s
  | none => "Unknown Option " ++ toString code

/-- Embedding of `decode_command`: the command-byte dictionary with the
fallback label `Unknown Command <cmd>`. -/
def decode_command (cmd : Nat) : String :=
  if cmd = IAC then "IAC"
  else if cmd = DONT then "DONT"
  else if cmd = DO then "DO"
  else if cmd = WONT then "WONT"
  else if cmd = WILL then "WILL"
  else if cmd = SB then "SB (Subnegotiation Begin)"
  else if cmd = SE then "SE (Subnegotiation End)"
  else if cmd = NOP then "NOP"
  else if cmd = 242 then "DM (Data Mark)"
  else if cmd = 243 then "BRK (Break)"
  else if cmd = 244 then "IP (Interrupt Process)"
  else if cmd = 245 then "AO (Abort Output)"
  else if cmd = 246 then "AYT (Are You There)"
  else if cmd = 247 then "EC (Erase Character)"
  else if cmd = 248 then "EL (Erase Line)"
  else if cmd = 249 then "GA (Go Ahead)"
  else "Unknown Command " ++ toString cmd

/-- Lookup in the `NEW_ENV_COMMANDS` dictionary of the script. -/
def NEW_ENV_COMMANDS_get : Nat → Option String
  | 0 => some "IS"
  | 1 => some "SEND"
  | 2 => some "INFO"
  | _ => none

/-- Python `bytes(..).decode('ascii', errors='ignore')`: bytes below
128 become their ASCII character, bytes 128 and above are dropped. -/
def asciiIgnore (l : List Nat) : String :=
  String.mk ((l.filter (fun b => b < 128)).map Char.ofNat)

/-- Characters of Python `bytes(..).decode('ascii', errors='replace')`:
bytes below 128 become their ASCII character, bytes 128 and above
become U+FFFD. -/
def asciiReplaceChars (l : List Nat) : List Char :=
  l.map (fun b => if b < 128 then Char.ofNat b else Char.ofNat 0xFFFD)

/-- Python `bytes(..).decode('ascii', errors='replace')` as a string. -/
def asciiReplace (l : List Nat) : String :=
  String.mk (asciiReplaceChars l)

/-- Lowercase hexadecimal digit character for a value below 16. -/
def hexDigitChar (n : Nat) : Char :=
  if n < 10 then Char.ofNat (48 + n) else Char.ofNat (87 + n)

/-- Concatenation of per-element escape sequences (helper for the
Python `repr` renderings). -/
def escConcat {α : Type} (esc : α → List Char) : List α → List Char
  | [] => []
  | b :: t => esc b ++ escConcat esc t

/-- Escape of one byte inside Python `repr(bytes)`, given the numeric
code `q` of the chosen quote character. -/
def pyBytesEscape (q : Nat) (b : Nat) : List Char :=
  if b = q ∨ b = 92 then [Char.ofNat 92, Char.ofNat b]
  else if b = 9 then [Char.ofNat 92, 't']
  else if b = 10 then [Char.ofNat 92, 'n']
  else if b = 13 then [Char.ofNat 92, 'r']
  else if b < 32 ∨ 127 ≤ b then
    [Char.ofNat 92, 'x', hexDigitChar (b / 16), hexDigitChar (b % 16)]
  else [Char.ofNat b]

/-- Python `repr` of a `bytes` object (the rendering used by the
f-strings `f"... {sub_data}"` in `decode_subnegotiation`): prefix `b`,
a quote character (single quote, or double quote when the bytes
contain a single quote and no double quote), escaped bytes, closing
quote. -/
def pyBytesRepr (l : List Nat) : String :=
  let q : Nat := if l.contains 39 ∧ ¬ l.contains 34 then 34 else 39
  String.mk ('b' :: Char.ofNat q :: (escConcat (pyBytesEscape q) l ++ [Char.ofNat q]))

/-- Escape of one character inside Python `repr(str)`, given the
numeric code `q` of the chosen quote character.  Modelled for the
character range the scanner produces (ASCII plus U+FFFD), on which
Python escapes the quote and backslash, renders tab, newline and
carriage return symbolically, other control characters and DEL as
`\xhh`, and any remaining character as itself. -/
def pyStrEscape (q : Nat) (c : Char) : List Char :=
  if c.toNat = q ∨ c.toNat = 92 then [Char.ofNat 92, c]
  else if c.toNat = 9 then [Char.ofNat 92, 't']
  else if c.toNat = 10 then [Char.ofNat 92, 'n']
  else if c.toNat = 13 then [Char.ofNat 92, 'r']
  else if c.toNat < 32 ∨ c.toNat = 127 then
    [Char.ofNat 92, 'x', hexDigitChar (c.toNat / 16), hexDigitChar (c.toNat % 16)]
  else [c]

/-- Python `repr` of a `str` (used by the scanner's data branch when
the decoded text contains control characters), modelled on the
character range the scanner produces. -/
def pyStrRepr (s : String) : String :=
  let cs := s.toList
  let q : Nat :=
    if cs.contains (Char.ofNat 39) ∧ ¬ cs.contains (Char.ofNat 34) then 34 else 39
  String.mk (Char.ofNat q :: (escConcat (pyStrEscape q) cs ++ [Char.ofNat q]))

/-- Embedding of `decode_subnegotiation`: option-specific decoding of a
subnegotiation body `data` (option byte followed by the payload). -/
def decode_subnegotiation (data : List Nat) : String :=
  match data with
  | [] => "Empty subnegotiation"
  | option :: sub_data =>
    if option = 24 then
      match sub_data with
      | cmd :: rest =>
        if cmd = 0 then "Terminal Type IS: " ++ asciiIgnore rest
        else if cmd = 1 then "Terminal Type SEND (request for terminal type)"
        else "Terminal Type subnegotiation: " ++ pyBytesRepr sub_data
      | [] => "Terminal Type subnegotiation: " ++ pyBytesRepr sub_data
    else if option = 31 then
      match sub_data with
      | a :: b :: c :: d :: _ =>
        "Window Size: " ++ toString ((a <<< 8) + b) ++ "x" ++ toString ((c <<< 8) + d)
      | _ => "Window Size subnegotiation: " ++ pyBytesRepr sub_data
    else if option = 32 then
      match sub_data with
      | cmd :: rest =>
        if cmd = 0 then "Terminal Speed IS: " ++ asciiIgnore rest
        else "Terminal Speed subnegotiation: " ++ pyBytesRepr sub_data
      | [] => "Terminal Speed subnegotiation: " ++ pyBytesRepr sub_data
    else if option = 39 then
      match sub_data with
      | cmd :: rest =>
        match NEW_ENV_COMMANDS_get cmd with
        | some name => "New Environment " ++ name ++ ": " ++ asciiIgnore rest
        | none => "New Environment subnegotiation: " ++ pyBytesRepr sub_data
      | [] => "New Environment subnegotiation: " ++ pyBytesRepr sub_data
    else
      get_option_name option ++ " subnegotiation: " ++ pyBytesRepr sub_data

/-- Checked twin of `decode_subnegotiation`: each subscripted access of
the Python function (`data[0]`, `sub_data[0]`, `sub_data[0..3]`)
becomes a fallible `List.get?` access in the `Option` monad, guarded
exactly by the length / truthiness checks the Python code performs
before it.  A `none` result would correspond to an `IndexError`. -/
def decode_subnegotiation_checked (data : List Nat) : Option String :=
  if data.isEmpty then some "Empty subnegotiation" else do
    let option ← data.get? 0
    let sub_data := data.drop 1
    if option = 24 then
      if ¬ sub_data.isEmpty then do
        let cmd ← sub_data.get? 0
        if cmd = 0 then some ("Terminal Type IS: " ++ asciiIgnore (sub_data.drop 1))
        else if cmd = 1 then some "Terminal Type SEND (request for terminal type)"
        else some ("Terminal Type subnegotiation: " ++ pyBytesRepr sub_data)
      else some ("Terminal Type subnegotiation: " ++ pyBytesRepr sub_data)
    else if option = 31 then
      if 4 ≤ sub_data.length then do
        let a ← sub_data.get? 0
        let b ← sub_data.get? 1
        let c ← sub_data.get? 2
        let d ← sub_data.get? 3
        some ("Window Size: " ++ toString ((a <<< 8) + b) ++ "x" ++ toString ((c <<< 8) + d))
      else some ("Window Size subnegotiation: " ++ pyBytesRepr sub_data)
    else if option = 32 then
      if ¬ sub_data.isEmpty then do
        let cmd ← sub_data.get? 0
        if cmd = 0 then some ("Terminal Speed IS: " ++ asciiIgnore (sub_data.drop 1))
        else some ("Terminal Speed subnegotiation: " ++ pyBytesRepr sub_data)
      else some ("Terminal Speed subnegotiation: " ++ pyBytesRepr sub_data)
    else if option = 39 then
      if ¬ sub_data.isEmpty then do
        let cmd ← sub_data.get? 0
        match NEW_ENV_COMMANDS_get cmd with
        | some name => some ("New Environment " ++ name ++ ": " ++ asciiIgnore (sub_data.drop 1))
        | none => some ("New Environment subnegotiation: " ++ pyBytesRepr sub_data)
      else some ("New Environment subnegotiation: " ++ pyBytesRepr sub_data)
    else
      some (get_option_name option ++ " subnegotiation: " ++ pyBytesRepr sub_data)

/-- Protocol events produced by the scanner: the four dictionary
shapes appended to `messages` by `parse_telnet_data`.  Each carries
the `direction` tag, its display fields and the `raw` byte span. -/
inductive Msg where
  | negotiation (direction command option : String) (raw : List Nat)
  | subnegotiation (direction option dataStr : String) (raw : List Nat)
  | command (direction commandName : String) (raw : List Nat)
  | data (direction dataStr : String) (raw : List Nat)
deriving DecidableEq, Repr

/-- The `raw` field of an event. -/
def Msg.raw : Msg → List Nat
  | .negotiation _ _ _ r => r
  | .subnegotiation _ _ _ r => r
  | .command _ _ r => r
  | .data _ _ r => r

/-- Recogniser for subnegotiation events. -/
def Msg.isSubnegotiation : Msg → Bool
  | .subnegotiation _ _ _ _ => true
  | _ => false

/-- Recogniser for negotiation events. -/
def Msg.isNegotiation : Msg → Bool
  | .negotiation _ _ _ _ => true
  | _ => false

/-- Recogniser for data events. -/
def Msg.isData : Msg → Bool
  | .data _ _ _ => true
  | _ => false

/-- The inner `IAC SE` search of the scanner's `SB` branch: the Python
loop walks an index `j` from the byte after `IAC SB` and stops at the
first position where `data[j] == IAC and data[j+1] == SE` (the loop
condition `j < len(data) - 1` keeps `j+1` in range).  On the remaining
suffix this returns the payload before the first adjacent `IAC SE`
pair together with the bytes after that pair, or `none` when no such
pair exists. -/
def findSE : List Nat → Option (List Nat × List Nat)
  | a :: b :: rest =>
    if a = IAC ∧ b = SE then some ([], rest)
    else
      match findSE (b :: rest) with
      | some (p, t) => some (a :: p, t)
      | none => none
  | _ => none

/-- The `option` field of a subnegotiation event:
`get_option_name(sub_data[0]) if sub_data else "Unknown"`. -/
def subOptionName : List Nat → String
  | [] => "Unknown"
  | o :: _ => get_option_name o

/-- The `data` field of a data event: the run is decoded as ASCII with
replacement, and rendered through `repr` when any character is a
control character (`any(ord(c) < 32 for c in text)`). -/
def renderDataField (run : List Nat) : String :=
  let chars := asciiReplaceChars run
  if chars.any (fun c => c.toNat < 32) then pyStrRepr (String.mk chars)
  else String.mk chars

/-- Fuel-indexed embedding of the scanner loop of `parse_telnet_data`,
recursing on the suffix of the buffer that starts at the cursor `i`.
Every iteration of the Python `while` loop advances `i` by at least
one, so `length`-many fuel steps always suffice (see the
fuel-irrelevance theorem). -/
def parseAux : Nat → String → List Nat → List Msg
  | 0, _, _ => []
  | _ + 1, _, [] => []
  | fuel + 1, dir, b :: rest =>
    if b = IAC then
      match rest with
      | [] => []
      | cmd :: rest2 =>
        if cmd = DO ∨ cmd = DONT ∨ cmd = WILL ∨ cmd = WONT then
          match rest2 with
          | [] => []
          | opt :: rest3 =>
            Msg.negotiation dir (decode_command cmd) (get_option_name opt) [b, cmd, opt]
              :: parseAux fuel dir rest3
        else if cmd = SB then
          match findSE rest2 with
          | some (payload, tail) =>
            Msg.subnegotiation dir (subOptionName payload) (decode_subnegotiation payload)
                (b :: cmd :: (payload ++ [IAC, SE]))
              :: parseAux fuel dir tail
          | none => []
        else
          Msg.command dir (decode_command cmd) [b, cmd] :: parseAux fuel dir rest2
    else
      Msg.data dir (renderDataField ((b :: rest).takeWhile (fun x => x ≠ IAC)))
          ((b :: rest).takeWhile (fun x => x ≠ IAC))
        :: parseAux fuel dir ((b :: rest).dropWhile (fun x => x ≠ IAC))

/-- Embedding of `parse_telnet_data`: scan a whole buffer with
`length`-many fuel steps. -/
def parse_telnet_data (data : List Nat) (direction : String) : List Msg :=
  parseAux data.length direction data

/-- Checked twin of the scanner loop: each subscripted access of the
Python loop (`data[i]`, `data[i+1]`, `data[i+2]`, `sub_data[0]`)
becomes a fallible `List.get?` access in the `Option` monad, guarded
exactly by the bounds checks the Python code performs before it
(`i < len(data)`, `i + 1 < len(data)`, `i + 2 < len(data)`,
truthiness of `sub_data`); the subnegotiation body is decoded with
`decode_subnegotiation_checked`.  A `none` result would correspond to
an `IndexError`. -/
def parseCheckedAux : Nat → String → List Nat → Option (List Msg)
  | 0, _, _ => some []
  | fuel + 1, dir, l =>
    if l.length = 0 then some [] else do
      let b ← l.get? 0
      if b = IAC then
        if 1 < l.length then do
          let cmd ← l.get? 1
          if cmd = DO ∨ cmd = DONT ∨ cmd = WILL ∨ cmd = WONT then
            if 2 < l.length then do
              let opt ← l.get? 2
              let ms ← parseCheckedAux fuel dir (l.drop 3)
              some (Msg.negotiation dir (decode_command cmd) (get_option_name opt) (l.take 3)
                :: ms)
            else some []
          else if cmd = SB then
            match findSE (l.drop 2) with
            | some (payload, tail) => do
              let optName ←
                if payload.isEmpty then some "Unknown"
                else do
                  let o ← payload.get? 0
                  some (get_option_name o)
              let txt ← decode_subnegotiation_checked payload
              let ms ← parseCheckedAux fuel dir tail
              some (Msg.subnegotiation dir optName txt (l.take 2 ++ (payload ++ [IAC, SE]))
                :: ms)
            | none => some []
          else do
            let ms ← parseCheckedAux fuel dir (l.drop 2)
            some (Msg.command dir (decode_command cmd) (l.take 2) :: ms)
        else some []
      else do
        let run := l.takeWhile (fun x => x ≠ IAC)
        let ms ← parseCheckedAux fuel dir (l.dropWhile (fun x => x ≠ IAC))
        some (Msg.data dir (renderDataField run) run :: ms)

/-- Checked twin of `parse_telnet_data`. -/
def parse_telnet_data_checked (data : List Nat) (direction : String) : Option (List Msg) :=
  parseCheckedAux data.length direction data

/-- The framing predicate for one scan: `true` exactly when the
scanner consumes the buffer without entering any of its three
silent-drop branches (a lone trailing `IAC`, a negotiation whose
option byte is cut off by the buffer end, or an `IAC SB` block with no
terminating `IAC SE`).  The recursion mirrors `parseAux` step for
step. -/
def wellFramedAux : Nat → List Nat → Bool
  | 0, [] => true
  | 0, _ :: _ => false
  | _ + 1, [] => true
  | fuel + 1, b :: rest =>
    if b = IAC then
      match rest with
      | [] => false
      | cmd :: rest2 =>
        if cmd = DO ∨ cmd = DONT ∨ cmd = WILL ∨ cmd = WONT then
          match rest2 with
          | [] => false
          | _ :: rest3 => wellFramedAux fuel rest3
        else if cmd = SB then
          match findSE rest2 with
          | some (_, tail) => wellFramedAux fuel tail
          | none => false
        else wellFramedAux fuel rest2
    else wellFramedAux fuel ((b :: rest).dropWhile (fun x => x ≠ IAC))

/-- A buffer contains no truncated trailing command, negotiation or
subnegotiation frame: the scan consumes it into complete frames only. -/
def wellFramed (data : List Nat) : Bool :=
  wellFramedAux data.length data

/-- Concatenation of the `raw` spans of a list of events. -/
def concatRaw : List Msg → List Nat
  | [] => []
  | m :: ms => m.raw ++ concatRaw ms

/-- Embedding of `send_telnet_command`: the outbound 3-byte frame
`IAC <cmd> <option>` (the socket write is external I/O). -/
def send_telnet_command (cmd option : Nat) : List Nat :=
  [IAC, cmd, option]

/-- Embedding of `send_subnegotiation`: the outbound frame
`IAC SB <option> <sub_data> IAC SE`. -/
def send_subnegotiation (option : Nat) (sub_data : List Nat) : List Nat :=
  [IAC, SB, option] ++ sub_data ++ [IAC, SE]

/-- Python substring test `needle in hay` on character lists. -/
def hasSub (needle : List Char) : List Char → Bool
  | [] => needle.isEmpty
  | h :: t => needle.isPrefixOf (h :: t) || hasSub needle t

/-- Python substring test `needle in hay` on strings. -/
def pyIn (needle hay : String) : Bool :=
  hasSub needle.toList hay.toList

/-- Python `str.lower()`, modelled on the character range the scanner
produces (ASCII plus U+FFFD): uppercase ASCII letters map to their
lowercase counterparts, every other character is unchanged. -/
def pyLower (s : String) : String :=
  String.mk (s.toList.map (fun c =>
    if 65 ≤ c.toNat ∧ c.toNat ≤ 90 then Char.ofNat (c.toNat + 32) else c))

/-- The completion test of the receive loop of `main`:
`"Welcome" in msg['data'] or "login:" in msg['data'].lower()`. -/
def dataTriggersComplete (text : String) : Bool :=
  pyIn "Welcome" text || pyIn "login:" (pyLower text)

/-- The per-connection mutable state of the receive loop of `main`:
`message_count` and the `negotiation_complete` flag. -/
structure PolicyState where
  message_count : Nat
  negotiation_complete : Bool
deriving DecidableEq, Repr

/-- The state at the top of the receive loop:
`negotiation_complete = False`, `message_count = 0`. -/
def initPolicyState : PolicyState :=
  { message_count := 0, negotiation_complete := false }

/-- The state update and outbound replies of one iteration of the
`for msg in messages` body of `main`: the counter is incremented for
every event; negotiation events are answered through the static
(command, option) reply table; a subnegotiation whose decoded text
contains `Terminal Type SEND` is answered with a Terminal-Type IS
frame carrying `xterm`; a data event whose text passes the completion
test sets the `negotiation_complete` flag.  (The `print` calls are
presentation-only and the socket writes are the returned frames.) -/
def policyStep (s : PolicyState) (m : Msg) : PolicyState × List (List Nat) :=
  let s' : PolicyState := { s with message_count := s.message_count + 1 }
  match m with
  | Msg.negotiation _ command option _ =>
    if command = "DO" ∧ option = "Terminal Type" then (s', [send_telnet_command WILL 24])
    else if command = "DO" ∧ option = "Suppress Go Ahead" then (s', [send_telnet_command WILL 3])
    else if command = "DO" ∧ option = "Negotiate About Window Size" then
      (s', [send_telnet_command WILL 31])
    else if command = "DO" ∧ option = "Linemode" then (s', [send_telnet_command WILL 34])
    else if command = "WILL" ∧ option = "Suppress Go Ahead" then (s', [send_telnet_command DO 3])
    else if command = "WILL" ∧ option = "Terminal Type" then (s', [send_telnet_command DO 24])
    else if command = "WILL" ∧ option = "Negotiate About Window Size" then
      (s', [send_telnet_command DO 31])
    else if command = "WILL" ∧ option = "Linemode" then (s', [send_telnet_command DO 34])
    else (s', [])
  | Msg.subnegotiation _ _ dataStr _ =>
    if pyIn "Terminal Type SEND" dataStr then
      (s', [send_subnegotiation 24 (0 :: [120, 116, 101, 114, 109])])
    else (s', [])
  | Msg.command _ _ _ => (s', [])
  | Msg.data _ dataStr _ =>
    if dataTriggersComplete dataStr then
      ({ s' with negotiation_complete := true }, [])
    else (s', [])

/-- Folding `policyStep` over an event sequence, collecting the
outbound frames in order. -/
def policyRun (s : PolicyState) : List Msg → PolicyState × List (List Nat)
  | [] => (s, [])
  | m :: ms =>
    let r1 := policyStep s m
    let r2 := policyRun r1.1 ms
    (r2.1, r1.2 ++ r2.2)

/-- A successful `IAC SE` search splits its input into the payload,
the terminator pair and the remaining bytes. -/
theorem findSE_eq : ∀ (l p t : List Nat), findSE l = some (p, t) → l = p ++ IAC :: SE :: t := by
  intro l
  induction l with
  | nil => intro p t h; simp [findSE] at h
  | cons a l' ih =>
    cases l' with
    | nil => intro p t h; simp [findSE] at h
    | cons b rest =>
      intro p t h
      unfold findSE at h
      split at h
      · next hc =>
        simp only [Option.some.injEq, Prod.mk.injEq] at h
        obtain ⟨rfl, rfl⟩ := h
        simp [hc.1, hc.2]
      · next hc =>
        cases hf : findSE (b :: rest) with
        | none => rw [hf] at h; simp at h
        | some pt =>
          obtain ⟨p', t'⟩ := pt
          rw [hf] at h
          simp only [Option.some.injEq, Prod.mk.injEq] at h
          obtain ⟨rfl, rfl⟩ := h
          simp [ih p' t' hf]

/-- The bytes after the terminator are at least two bytes shorter than
the searched region. -/
theorem findSE_length {l p t : List Nat} (h : findSE l = some (p, t)) :
    t.length + 2 ≤ l.length := by
  have := findSE_eq l p t h
  subst this
  simp

/-- A search that fails on a list also fails on its tail. -/
theorem findSE_none_tail {a : Nat} {l : List Nat} (h : findSE (a :: l) = none) :
    findSE l = none := by
  cases l with
  | nil => rfl
  | cons b rest =>
    unfold findSE at h
    split at h
    · simp at h
    · cases hf : findSE (b :: rest) with
      | none => rfl
      | some pt => obtain ⟨p', t'⟩ := pt; rw [hf] at h; simp at h

/-- A search that fails on a list fails on any `dropWhile` suffix. -/
theorem findSE_none_dropWhile {l : List Nat} (p : Nat → Bool) (h : findSE l = none) :
    findSE (l.dropWhile p) = none := by
  induction l with
  | nil => simpa using h
  | cons a t ih =>
    rw [List.dropWhile_cons]
    by_cases hp : p a = true
    · rw [if_pos hp]; exact ih (findSE_none_tail h)
    · rw [if_neg hp]; exact h

/-- The scanner returns no events on the empty buffer, with any fuel. -/
theorem parseAux_nil (fuel : Nat) (dir : String) : parseAux fuel dir [] = [] := by
  cases fuel <;> rfl

/-- The framing predicate holds on the empty buffer, with any fuel. -/
theorem wellFramedAux_nil (fuel : Nat) : wellFramedAux fuel [] = true := by
  cases fuel <;> rfl

/-- Fuel irrelevance of the scanner loop: any two fuel amounts of at
least the buffer length produce the same event list, because every
iteration consumes at least one byte. -/
theorem parseAux_fuel : ∀ (f1 f2 : Nat) (dir : String) (l : List Nat),
    l.length ≤ f1 → l.length ≤ f2 → parseAux f1 dir l = parseAux f2 dir l := by
  intro f1
  induction f1 with
  | zero =>
    intro f2 dir l h1 _
    rw [List.length_eq_zero.mp (Nat.le_zero.mp h1), parseAux_nil, parseAux_nil]
  | succ n ih =>
    intro f2 dir l h1 h2
    cases f2 with
    | zero =>
      rw [List.length_eq_zero.mp (Nat.le_zero.mp h2), parseAux_nil, parseAux_nil]
    | succ m =>
      cases l with
      | nil => rw [parseAux_nil, parseAux_nil]
      | cons b rest =>
        by_cases hb : b = IAC
        · cases rest with
          | nil => simp only [parseAux, if_pos hb]
          | cons cmd rest2 =>
            by_cases hc : cmd = DO ∨ cmd = DONT ∨ cmd = WILL ∨ cmd = WONT
            · cases rest2 with
              | nil => simp only [parseAux, if_pos hb, if_pos hc]
              | cons opt rest3 =>
                have hlen : rest3.length ≤ n ∧ rest3.length ≤ m := by
                  simp only [List.length_cons] at h1 h2; omega
                simp only [parseAux, if_pos hb, if_pos hc]
                rw [ih m dir rest3 hlen.1 hlen.2]
            · by_cases hsb : cmd = SB
              · cases hf : findSE rest2 with
                | none => simp only [parseAux, if_pos hb, if_neg hc, if_pos hsb, hf]
                | some pt =>
                  obtain ⟨payload, tail⟩ := pt
                  have hlt := findSE_length hf
                  have hlen : tail.length ≤ n ∧ tail.length ≤ m := by
                    simp only [List.length_cons] at h1 h2; omega
                  simp only [parseAux, if_pos hb, if_neg hc, if_pos hsb, hf]
                  rw [ih m dir tail hlen.1 hlen.2]
              · have hlen : rest2.length ≤ n ∧ rest2.length ≤ m := by
                  simp only [List.length_cons] at h1 h2; omega
                simp only [parseAux, if_pos hb, if_neg hc, if_neg hsb]
                rw [ih m dir rest2 hlen.1 hlen.2]
        · have hdrop : ((b :: rest).dropWhile (fun x => x ≠ IAC)).length ≤ rest.length := by
            rw [List.dropWhile_cons, if_pos (by simpa using hb)]
            exact (List.dropWhile_suffix _).length_le
          have hlen : ((b :: rest).dropWhile (fun x => x ≠ IAC)).length ≤ n ∧
              ((b :: rest).dropWhile (fun x => x ≠ IAC)).length ≤ m := by
            simp only [List.length_cons] at h1 h2; omega
          simp only [parseAux, if_neg hb]
          rw [ih m dir _ hlen.1 hlen.2]

/-- Round-trip of one scan at any fuel: when the framing predicate
holds, the raw spans of the produced events concatenate back to the
scanned suffix. -/
theorem concatRaw_parseAux : ∀ (fuel : Nat) (dir : String) (l : List Nat),
    wellFramedAux fuel l = true → concatRaw (parseAux fuel dir l) = l := by
  intro fuel
  induction fuel with
  | zero =>
    intro dir l h
    cases l with
    | nil => rw [parseAux_nil]; rfl
    | cons a t => simp [wellFramedAux] at h
  | succ n ih =>
    intro dir l h
    cases l with
    | nil => rw [parseAux_nil]; rfl
    | cons b rest =>
      by_cases hb : b = IAC
      · cases rest with
        | nil => simp only [wellFramedAux, if_pos hb] at h; exact absurd h (by decide)
        | cons cmd rest2 =>
          by_cases hc : cmd = DO ∨ cmd = DONT ∨ cmd = WILL ∨ cmd = WONT
          · cases rest2 with
            | nil =>
              simp only [wellFramedAux, if_pos hb, if_pos hc] at h
              exact absurd h (by decide)
            | cons opt rest3 =>
              simp only [wellFramedAux, if_pos hb, if_pos hc] at h
              simp only [parseAux, if_pos hb, if_pos hc]
              simp only [concatRaw, Msg.raw, ih dir rest3 h]
              rfl
          · by_cases hsb : cmd = SB
            · cases hf : findSE rest2 with
              | none =>
                simp only [wellFramedAux, if_pos hb, if_neg hc, if_pos hsb, hf] at h
                exact absurd h (by decide)
              | some pt =>
                obtain ⟨payload, tail⟩ := pt
                simp only [wellFramedAux, if_pos hb, if_neg hc, if_pos hsb, hf] at h
                simp only [parseAux, if_pos hb, if_neg hc, if_pos hsb, hf]
                simp only [concatRaw, Msg.raw, ih dir tail h]
                rw [findSE_eq rest2 payload tail hf]
                simp
            · simp only [wellFramedAux, if_pos hb, if_neg hc, if_neg hsb] at h
              simp only [parseAux, if_pos hb, if_neg hc, if_neg hsb]
              simp only [concatRaw, Msg.raw, ih dir rest2 h]
              rfl
      · simp only [wellFramedAux, if_neg hb] at h
        simp only [parseAux, if_neg hb]
        simp only [concatRaw, Msg.raw, ih dir _ h]
        exact List.takeWhile_append_dropWhile _ _

/-- C1: for every input buffer with no truncated trailing command,
negotiation or subnegotiation frame (`wellFramed`), concatenating the
`raw` fields of all events returned by `parse_telnet_data`, in order,
reproduces the buffer exactly — the spans are contiguous,
non-overlapping and lossless. -/
theorem c1_lossless_framing (dir : String) (data : List Nat) (h : wellFramed data = true) :
    concatRaw (parse_telnet_data data dir) = data :=
  concatRaw_parseAux data.length dir data h

/-- Witness for C1: a buffer holding a negotiation, a data run, a
standalone command and a terminated subnegotiation is well framed and
round-trips. -/
theorem c1_lossless_framing_witness :
    wellFramed [255, 253, 24, 72, 105, 255, 241, 255, 250, 24, 1, 255, 240] = true ∧
      concatRaw (parse_telnet_data [255, 253, 24, 72, 105, 255, 241, 255, 250, 24, 1, 255, 240]
          "Server") =
        [255, 253, 24, 72, 105, 255, 241, 255, 250, 24, 1, 255, 240] :=
  ⟨by decide, c1_lossless_framing "Server" _ (by decide)⟩

/-- C10: the scanner loop terminates within `length`-many iterations
on every finite buffer: running `parseAux` with any fuel of at least
the buffer length — each loop iteration advances the cursor by at
least one byte — produces exactly `parse_telnet_data`'s result. -/
theorem c10_fuel_termination (fuel : Nat) (dir : String) (data : List Nat)
    (h : data.length ≤ fuel) : parseAux fuel dir data = parse_telnet_data data dir :=
  parseAux_fuel fuel data.length dir data h (Nat.le_refl _)

/-- Witness for C10: a surplus-fuel run coincides with the scan on a
concrete buffer. -/
theorem c10_fuel_termination_witness :
    parseAux 50 "Server" [255, 253, 24, 72] = parse_telnet_data [255, 253, 24, 72] "Server" :=
  c10_fuel_termination 50 "Server" [255, 253, 24, 72] (by decide)

/-- The checked payload decoder never fails: every guarded `get?`
access succeeds and the result is exactly the plain decoder's. -/
theorem decode_subnegotiation_checked_eq (data : List Nat) :
    decode_subnegotiation_checked data = some (decode_subnegotiation data) := by
  cases data with
  | nil => rfl
  | cons o sub =>
    by_cases h24 : o = 24
    · cases sub with
      | nil => simp [decode_subnegotiation_checked, decode_subnegotiation, h24]
      | cons c r =>
        by_cases hc0 : c = 0
        · simp [decode_subnegotiation_checked, decode_subnegotiation, h24, hc0]
        · by_cases hc1 : c = 1 <;>
            simp [decode_subnegotiation_checked, decode_subnegotiation, h24, hc0, hc1]
    · by_cases h31 : o = 31
      · rcases sub with _ | ⟨a, _ | ⟨b, _ | ⟨c, _ | ⟨d, r⟩⟩⟩⟩ <;>
          simp [decode_subnegotiation_checked, decode_subnegotiation, h24, h31]
      · by_cases h32 : o = 32
        · cases sub with
          | nil => simp [decode_subnegotiation_checked, decode_subnegotiation, h24, h31, h32]
          | cons c r =>
            by_cases hc0 : c = 0 <;>
              simp [decode_subnegotiation_checked, decode_subnegotiation, h24, h31, h32, hc0]
        · by_cases h39 : o = 39
          · cases sub with
            | nil =>
              simp [decode_subnegotiation_checked, decode_subnegotiation, h24, h31, h32, h39]
            | cons c r =>
              cases he : NEW_ENV_COMMANDS_get c <;>
                simp [decode_subnegotiation_checked, decode_subnegotiation,
                  h24, h31, h32, h39, he]
          · cases sub <;>
              simp [decode_subnegotiation_checked, decode_subnegotiation,
                h24, h31, h32, h39]

/-- The checked scanner loop never fails: every guarded access
succeeds and the result is exactly the plain scanner's, at every fuel. -/
theorem parseCheckedAux_eq : ∀ (fuel : Nat) (dir : String) (l : List Nat),
    parseCheckedAux fuel dir l = some (parseAux fuel dir l) := by
  intro fuel
  induction fuel with
  | zero => intro dir l; rfl
  | succ n ih =>
    intro dir l
    cases l with
    | nil => rfl
    | cons b rest =>
      by_cases hb : b = IAC
      · cases rest with
        | nil => simp [parseCheckedAux, parseAux, hb]
        | cons cmd rest2 =>
          by_cases hc : cmd = DO ∨ cmd = DONT ∨ cmd = WILL ∨ cmd = WONT
          · cases rest2 with
            | nil =>
              rcases hc with h | h | h | h <;>
                simp [parseCheckedAux, parseAux, hb, h, IAC, DO, DONT, WILL, WONT, SB]
            | cons opt rest3 =>
              rcases hc with h | h | h | h <;>
                simp [parseCheckedAux, parseAux, hb, h, IAC, DO, DONT, WILL, WONT, SB,
                  ih dir rest3]
          · by_cases hsb : cmd = SB
            · cases hf : findSE rest2 with
              | none =>
                simp [parseCheckedAux, parseAux, hb, hsb, hf, IAC, DO, DONT, WILL, WONT, SB]
              | some pt =>
                obtain ⟨payload, tail⟩ := pt
                cases payload with
                | nil =>
                  simp [parseCheckedAux, parseAux, hb, hsb, hf, IAC, DO, DONT, WILL, WONT, SB,
                    ih dir tail, decode_subnegotiation_checked_eq, subOptionName]
                | cons po pr =>
                  simp [parseCheckedAux, parseAux, hb, hsb, hf, IAC, DO, DONT, WILL, WONT, SB,
                    ih dir tail, decode_subnegotiation_checked_eq, subOptionName]
            · simp [parseCheckedAux, parseAux, ih dir rest2]
              simp only [if_pos hb, if_neg hc, if_neg hsb]
      · simp [parseCheckedAux, parseAux, hb, ih]

/-- C2: neither the scanner nor the payload decoder can raise: the
checked twins, in which every subscripted access of the Python code is
a fallible lookup guarded by the length check the code performs,
always return `some` of the plain result — malformed, truncated or
unrecognized input degrades to a generic dump, an unknown-option
label, or a silent drop. -/
theorem c2_no_panic (dir : String) (data payload : List Nat) :
    parse_telnet_data_checked data dir = some (parse_telnet_data data dir) ∧
      decode_subnegotiation_checked payload = some (decode_subnegotiation payload) :=
  ⟨parseCheckedAux_eq data.length dir data, decode_subnegotiation_checked_eq payload⟩

/-- On a buffer with no adjacent `IAC SE` pair anywhere, the scanner
never produces a subnegotiation event, at any fuel. -/
theorem parseAux_no_subneg : ∀ (fuel : Nat) (dir : String) (l : List Nat),
    findSE l = none → ∀ m ∈ parseAux fuel dir l, m.isSubnegotiation = false := by
  intro fuel
  induction fuel with
  | zero => intro dir l _ m hm; simp [parseAux] at hm
  | succ n ih =>
    intro dir l h m hm
    cases l with
    | nil => rw [parseAux_nil] at hm; simp at hm
    | cons b rest =>
      by_cases hb : b = IAC
      · cases rest with
        | nil => simp only [parseAux, if_pos hb] at hm; simp at hm
        | cons cmd rest2 =>
          by_cases hc : cmd = DO ∨ cmd = DONT ∨ cmd = WILL ∨ cmd = WONT
          · cases rest2 with
            | nil => simp only [parseAux, if_pos hb, if_pos hc] at hm; simp at hm
            | cons opt rest3 =>
              simp only [parseAux, if_pos hb, if_pos hc, List.mem_cons] at hm
              rcases hm with rfl | hm
              · rfl
              · exact ih dir rest3
                  (findSE_none_tail (findSE_none_tail (findSE_none_tail h))) m hm
          · by_cases hsb : cmd = SB
            · have hf : findSE rest2 = none := findSE_none_tail (findSE_none_tail h)
              simp only [parseAux, if_pos hb, if_neg hc, if_pos hsb, hf] at hm
              simp at hm
            · simp only [parseAux, if_pos hb, if_neg hc, if_neg hsb, List.mem_cons] at hm
              rcases hm with rfl | hm
              · rfl
              · exact ih dir rest2 (findSE_none_tail (findSE_none_tail h)) m hm
      · simp only [parseAux, if_neg hb, List.mem_cons] at hm
        rcases hm with rfl | hm
        · rfl
        · exact ih dir _ (findSE_none_dropWhile _ h) m hm

/-- C4: when an `IAC SB` block is never terminated — no adjacent
`IAC SE` pair occurs in the bytes after it (`findSE` fails) — the
scanner consumes from that `IAC SB` to the end of the buffer and emits
nothing for the block; more generally a buffer without any `IAC SE`
pair yields zero subnegotiation events. -/
theorem c4_unterminated_sb (dir : String) (d : List Nat) (h : findSE d = none) :
    parse_telnet_data (IAC :: SB :: d) dir = [] ∧
      ∀ m ∈ parse_telnet_data d dir, m.isSubnegotiation = false := by
  constructor
  · simp [parse_telnet_data, parseAux, h, IAC, DO, DONT, WILL, WONT, SB]
  · exact parseAux_no_subneg d.length dir d h

/-- Witness for C4: the truncated block `IAC SB 24 0` of the spec's
test vector is consumed silently, and the pair-free buffer `[24, 0]`
produces no subnegotiation events. -/
theorem c4_unterminated_sb_witness :
    findSE [24, 0] = none ∧
      (parse_telnet_data (IAC :: SB :: [24, 0]) "Server" = [] ∧
        ∀ m ∈ parse_telnet_data [24, 0] "Server", m.isSubnegotiation = false) :=
  ⟨by decide, c4_unterminated_sb "Server" [24, 0] (by decide)⟩

/-- A predicate that holds on every element makes `takeWhile` the
identity. -/
theorem takeWhile_all {p : Nat → Bool} : ∀ {xs : List Nat},
    (∀ x ∈ xs, p x = true) → xs.takeWhile p = xs := by
  intro xs
  induction xs with
  | nil => intro _; rfl
  | cons a t ih =>
    intro h
    rw [List.takeWhile_cons, if_pos (h a (List.mem_cons_self a t))]
    rw [ih (fun x hx => h x (List.mem_cons_of_mem a hx))]

/-- A predicate that holds on every element makes `dropWhile` empty. -/
theorem dropWhile_all {p : Nat → Bool} : ∀ {xs : List Nat},
    (∀ x ∈ xs, p x = true) → xs.dropWhile p = [] := by
  intro xs
  induction xs with
  | nil => intro _; rfl
  | cons a t ih =>
    intro h
    rw [List.dropWhile_cons, if_pos (h a (List.mem_cons_self a t))]
    exact ih (fun x hx => h x (List.mem_cons_of_mem a hx))

/-- `takeWhile` over an append stops exactly at the first appended
element when the predicate holds on the prefix and fails there. -/
theorem takeWhile_append_all {p : Nat → Bool} {y : Nat} {ys : List Nat} : ∀ {xs : List Nat},
    (∀ x ∈ xs, p x = true) → p y = false → (xs ++ y :: ys).takeWhile p = xs := by
  intro xs
  induction xs with
  | nil => intro _ hy; simp [List.takeWhile_cons, hy]
  | cons a t ih =>
    intro h hy
    rw [List.cons_append, List.takeWhile_cons, if_pos (h a (List.mem_cons_self a t))]
    rw [ih (fun x hx => h x (List.mem_cons_of_mem a hx)) hy]

/-- `dropWhile` over an append drops exactly the prefix when the
predicate holds on the prefix and fails at the first appended element. -/
theorem dropWhile_append_all {p : Nat → Bool} {y : Nat} {ys : List Nat} : ∀ {xs : List Nat},
    (∀ x ∈ xs, p x = true) → p y = false → (xs ++ y :: ys).dropWhile p = y :: ys := by
  intro xs
  induction xs with
  | nil => intro _ hy; simp [List.dropWhile_cons, hy]
  | cons a t ih =>
    intro h hy
    rw [List.cons_append, List.dropWhile_cons, if_pos (h a (List.mem_cons_self a t))]
    exact ih (fun x hx => h x (List.mem_cons_of_mem a hx)) hy

/-- Every negotiation event the scanner emits spans exactly three raw
bytes, at any fuel: no partial negotiation is ever emitted. -/
theorem parseAux_negotiation_raw : ∀ (fuel : Nat) (dir : String) (l : List Nat),
    ∀ m ∈ parseAux fuel dir l, m.isNegotiation = true → m.raw.length = 3 := by
  intro fuel
  induction fuel with
  | zero => intro dir l m hm; simp [parseAux] at hm
  | succ n ih =>
    intro dir l m hm
    cases l with
    | nil => simp [parseAux] at hm
    | cons b rest =>
      by_cases hb : b = IAC
      · cases rest with
        | nil => simp only [parseAux, if_pos hb] at hm; simp at hm
        | cons cmd rest2 =>
          by_cases hc : cmd = DO ∨ cmd = DONT ∨ cmd = WILL ∨ cmd = WONT
          · cases rest2 with
            | nil => simp only [parseAux, if_pos hb, if_pos hc] at hm; simp at hm
            | cons opt rest3 =>
              simp only [parseAux, if_pos hb, if_pos hc, List.mem_cons] at hm
              rcases hm with rfl | hm
              · intro _; rfl
              · exact ih dir rest3 m hm
          · by_cases hsb : cmd = SB
            · cases hf : findSE rest2 with
              | none => simp only [parseAux, if_pos hb, if_neg hc, if_pos hsb, hf] at hm; simp at hm
              | some pt =>
                obtain ⟨payload, tail⟩ := pt
                simp only [parseAux, if_pos hb, if_neg hc, if_pos hsb, hf, List.mem_cons] at hm
                rcases hm with rfl | hm
                · intro hnot; simp [Msg.isNegotiation] at hnot
                · exact ih dir tail m hm
            · simp only [parseAux, if_pos hb, if_neg hc, if_neg hsb, List.mem_cons] at hm
              rcases hm with rfl | hm
              · intro hnot; simp [Msg.isNegotiation] at hnot
              · exact ih dir rest2 m hm
      · simp only [parseAux, if_neg hb, List.mem_cons] at hm
        rcases hm with rfl | hm
        · intro hnot; simp [Msg.isNegotiation] at hnot
        · exact ih dir _ m hm

/-- Unfolding of one scanner step on a data byte. -/
theorem parseAux_cons_data (fuel : Nat) (dir : String) (b : Nat) (rest : List Nat)
    (hb : ¬ b = IAC) :
    parseAux (fuel + 1) dir (b :: rest) =
      Msg.data dir (renderDataField ((b :: rest).takeWhile (fun x => x ≠ IAC)))
          ((b :: rest).takeWhile (fun x => x ≠ IAC))
        :: parseAux fuel dir ((b :: rest).dropWhile (fun x => x ≠ IAC)) := by
  simp only [parseAux, if_neg hb]

/-- C5: a buffer ending in `IAC` followed by one of DO/DONT/WILL/WONT
with the option byte missing produces exactly the events of the buffer
without that truncated tail — the scanner advances past the two bytes
and emits nothing for them — and no partial negotiation event is ever
emitted on any input: every negotiation event spans exactly 3 bytes. -/
theorem c5_truncated_negotiation (dir : String) (c : Nat) (pre d : List Nat)
    (hc : c = DO ∨ c = DONT ∨ c = WILL ∨ c = WONT) (hpre : ∀ b ∈ pre, b ≠ IAC) :
    parse_telnet_data (pre ++ [IAC, c]) dir = parse_telnet_data pre dir ∧
      ∀ m ∈ parse_telnet_data d dir, m.isNegotiation = true → m.raw.length = 3 := by
  constructor
  · cases pre with
    | nil =>
      rcases hc with rfl | rfl | rfl | rfl <;>
        simp [parse_telnet_data, parseAux, IAC, DO, DONT, WILL, WONT, SB]
    | cons p ps =>
      have hall : ∀ x ∈ p :: ps, (fun x => decide (x ≠ IAC)) x = true := by
        intro x hx; simpa using hpre x hx
      have hIAC : (fun x => decide (x ≠ IAC)) IAC = false := by simp
      have hp : ¬ p = IAC := hpre p (List.mem_cons_self p ps)
      have h2 : parseAux (ps.length + 2) dir [IAC, c] = [] := by
        rw [parseAux_fuel (ps.length + 2) 2 dir [IAC, c] (by simp) (by simp)]
        rcases hc with rfl | rfl | rfl | rfl <;>
          simp [parseAux, IAC, DO, DONT, WILL, WONT, SB]
      have hlen : ((p :: ps) ++ [IAC, c]).length = ps.length + 2 + 1 := by simp
      rw [parse_telnet_data, hlen, List.cons_append]
      rw [parseAux_cons_data (ps.length + 2) dir p (ps ++ [IAC, c]) hp]
      rw [← List.cons_append]
      rw [takeWhile_append_all hall hIAC, dropWhile_append_all hall hIAC, h2]
      rw [parse_telnet_data, List.length_cons]
      rw [parseAux_cons_data ps.length dir p ps hp]
      rw [takeWhile_all hall, dropWhile_all hall, parseAux_nil]
  · exact parseAux_negotiation_raw d.length dir d

/-- Witness for C5: dropping the truncated tail `IAC DO` after a data
byte, and full 3-byte spans on a concrete negotiation. -/
theorem c5_truncated_negotiation_witness :
    parse_telnet_data ([72] ++ [IAC, DO]) "Server" = parse_telnet_data [72] "Server" ∧
      ∀ m ∈ parse_telnet_data [255, 253, 24] "Server",
        m.isNegotiation = true → m.raw.length = 3 :=
  c5_truncated_negotiation "Server" DO [72] [255, 253, 24] (by decide) (by decide)

/-- Counterexample for C6: the empty buffer contains no `IAC` byte yet
the scan returns zero events, not one `Data` event. -/
theorem c6_empty_buffer_counterexample :
    (∀ b ∈ ([] : List Nat), b ≠ IAC) ∧
      ¬ ∃ s, parse_telnet_data [] "Server" = [Msg.data "Server" s []] := by
  constructor
  · intro b hb; cases hb
  · rintro ⟨s, h⟩
    simp [parse_telnet_data, parseAux] at h

/-- C6 (amended): for every nonempty buffer containing no `IAC` byte,
the scan returns exactly one `Data` event whose raw bytes equal the
buffer. -/
theorem c6_single_data_event_amended (dir : String) (d : List Nat) (hne : d ≠ [])
    (h : ∀ b ∈ d, b ≠ IAC) :
    ∃ s, parse_telnet_data d dir = [Msg.data dir s d] := by
  cases d with
  | nil => exact absurd rfl hne
  | cons b rest =>
    have hall : ∀ x ∈ b :: rest, (fun x => decide (x ≠ IAC)) x = true := by
      intro x hx; simpa using h x hx
    have hb : ¬ b = IAC := h b (List.mem_cons_self b rest)
    refine ⟨renderDataField (b :: rest), ?_⟩
    rw [parse_telnet_data, List.length_cons]
    rw [parseAux_cons_data rest.length dir b rest hb]
    rw [takeWhile_all hall, dropWhile_all hall, parseAux_nil]

/-- Witness for C6 (amended): the two-byte IAC-free buffer `Hi` yields
one data event spanning it. -/
theorem c6_single_data_event_amended_witness :
    ∃ s, parse_telnet_data [72, 105] "Server" = [Msg.data "Server" s [72, 105]] :=
  c6_single_data_event_amended "Server" [72, 105] (by decide) (by decide)

/-- Counterexample for C3: on the Terminal Type IS payload `[0, 200]`
the decoder drops the invalid byte 200 (Python `errors='ignore'`)
instead of replacing it with U+FFFD as lossy replacement
(`errors='replace'`) would. -/
theorem c3_replacement_counterexample :
    decode_subnegotiation [24, 0, 200] = "Terminal Type IS: " ∧
      decode_subnegotiation [24, 0, 200] ≠ "Terminal Type IS: " ++ asciiReplace [200] := by
  constructor <;> decide

/-- C3 (amended): for every Terminal Type payload whose first payload
byte is 0 (IS), the decoder reports the remaining bytes as the
announced terminal type, decoding them as ASCII and dropping
(ignoring) invalid non-ASCII bytes. -/
theorem c3_terminal_type_is_amended (rest : List Nat) :
    decode_subnegotiation (24 :: 0 :: rest) = "Terminal Type IS: " ++ asciiIgnore rest := by
  rfl

/-- C9: for every Window Size payload with at least 4 bytes the
decoder reports the big-endian 16-bit width from bytes 0 and 1 and the
big-endian 16-bit height from bytes 2 and 3; shorter payloads get the
generic dump. -/
theorem c9_window_size (a b c d : Nat) (rest p : List Nat) (hp : p.length < 4) :
    decode_subnegotiation (31 :: a :: b :: c :: d :: rest) =
        "Window Size: " ++ toString (a * 256 + b) ++ "x" ++ toString (c * 256 + d) ∧
      decode_subnegotiation (31 :: p) = "Window Size subnegotiation: " ++ pyBytesRepr p := by
  constructor
  · simp [decode_subnegotiation, Nat.shiftLeft_eq]
  · rcases p with _ | ⟨x, _ | ⟨y, _ | ⟨z, _ | ⟨w, r⟩⟩⟩⟩
    · rfl
    · rfl
    · rfl
    · rfl
    · simp only [List.length_cons] at hp
      omega

/-- Witness for C9: the spec's test vector `decode(31, [0,80,0,24])`
reports 80 by 24, and the short payload `[0, 80]` gets the generic
dump. -/
theorem c9_window_size_witness :
    decode_subnegotiation [31, 0, 80, 0, 24] =
        "Window Size: " ++ toString (0 * 256 + 80) ++ "x" ++ toString (0 * 256 + 24) ∧
      decode_subnegotiation [31, 0, 80] = "Window Size subnegotiation: " ++ pyBytesRepr [0, 80] :=
  c9_window_size 0 80 0 24 [] [0, 80] (by decide)

/-- C7: from any state whose completion flag is still unset, the event
sequence `DO Terminal-Type` then `DO Suppress-Go-Ahead` makes the
responder emit exactly the replies `IAC WILL 24` then `IAC WILL 3`, in
event order. -/
theorem c7_policy_two_replies (dir : String) (r1 r2 : List Nat) (s : PolicyState)
    (_h : s.negotiation_complete = false) :
    (policyRun s [Msg.negotiation dir "DO" "Terminal Type" r1,
        Msg.negotiation dir "DO" "Suppress Go Ahead" r2]).2 =
      [send_telnet_command WILL 24, send_telnet_command WILL 3] := by
  rfl

/-- Witness for C7: the reply pair from the initial state, with the
events as the scanner produces them from `IAC DO 24 IAC DO 3`. -/
theorem c7_policy_two_replies_witness :
    (policyRun initPolicyState [Msg.negotiation "Server" "DO" "Terminal Type" [255, 253, 24],
        Msg.negotiation "Server" "DO" "Suppress Go Ahead" [255, 253, 3]]).2 =
      [send_telnet_command WILL 24, send_telnet_command WILL 3] :=
  c7_policy_two_replies "Server" [255, 253, 24] [255, 253, 3] initPolicyState (by decide)

/-- One responder step never clears the completion flag. -/
theorem policyStep_mono (s : PolicyState) (e : Msg) (h : s.negotiation_complete = true) :
    ((policyStep s e).1).negotiation_complete = true := by
  cases e <;> simp only [policyStep] <;> (try split_ifs) <;> simp [h]

/-- A whole run of responder steps never clears the completion flag. -/
theorem policyRun_mono : ∀ (ms : List Msg) (s : PolicyState),
    s.negotiation_complete = true → ((policyRun s ms).1).negotiation_complete = true := by
  intro ms
  induction ms with
  | nil => intro s h; exact h
  | cons m t ih => intro s h; exact ih (policyStep s m).1 (policyStep_mono s m h)

/-- C8: the responder state reaches COMPLETE as soon as a data event's
text passes the completion-marker test, and from any COMPLETE state no
later event — nor any whole sequence of events — ever clears the flag
back to NEGOTIATING. -/
theorem c8_complete_monotone (s : PolicyState) (dir text : String) (raw : List Nat) (e : Msg)
    (ms : List Msg) :
    (dataTriggersComplete text = true →
        ((policyStep s (Msg.data dir text raw)).1).negotiation_complete = true) ∧
      (s.negotiation_complete = true → ((policyStep s e).1).negotiation_complete = true) ∧
      (s.negotiation_complete = true → ((policyRun s ms).1).negotiation_complete = true) :=
  ⟨fun h => by simp [policyStep, h],
   fun h => policyStep_mono s e h,
   fun h => policyRun_mono ms s h⟩

/-- Witness for C8: a banner containing `Welcome` sets the flag from
the initial state, and a later command event and a later run both keep
a set flag. -/
theorem c8_complete_monotone_witness :
    dataTriggersComplete "Welcome to the MUSH" = true ∧
      ((policyStep initPolicyState
          (Msg.data "Server" "Welcome to the MUSH" [87])).1).negotiation_complete = true ∧
      ((policyStep ⟨3, true⟩
          (Msg.command "Server" "NOP" [255, 241])).1).negotiation_complete = true ∧
      ((policyRun ⟨3, true⟩ [Msg.data "Server" "hi" [104, 105]]).1).negotiation_complete = true :=
  ⟨by decide,
   (c8_complete_monotone initPolicyState "Server" "Welcome to the MUSH" [87]
      (Msg.command "Server" "NOP" [255, 241]) []).1 (by decide),
   (c8_complete_monotone ⟨3, true⟩ "Server" "x" [87]
      (Msg.command "Server" "NOP" [255, 241]) [Msg.data "Server" "hi" [104, 105]]).2.1 (by decide),
   (c8_complete_monotone ⟨3, true⟩ "Server" "x" [87]
      (Msg.command "Server" "NOP" [255, 241]) [Msg.data "Server" "hi" [104, 105]]).2.2 (by decide)⟩

end TelnetDecoder
